import Mathlib

set_option maxRecDepth 8000

/-!
Verification of the hcv-secrets-scanner repository.

This file gives a shallow embedding of the logical core of the scanner
(`hcvss/hcvss.py` and `hcvss/cli.py`):

* a JSON value type `Json`, together with an executable parser `parseJson`
  (modelling both Python's `json.load`/`json.loads` and jq's input parsing)
  and a jq-style pretty printer `jqFmt`;
* Python dynamic-semantic helpers (`pyGet`, `pyLen`, `pyStr`, truthiness of
  environment values, `str.strip`);
* the `SecretsScanner` operations `check_secrets`, `_get_secret_values`
  (here `get_secret_values`), `_generate_hcp_api_token` (here
  `generate_hcp_api_token`), `fetch_hcp_secrets`, and the constructor; and
* the Typer CLI dispatch (`cliRun`) with the `--version` eager callback,
  `check` and `fetch` subcommands.

External effects are modelled by explicit inputs: the result of reading the
secrets file is a `FileRead`, the stdout of the two `curl` subprocesses are
`Except String String` inputs, and printed lines / written files are returned
in outcome structures.  Exceptions are modelled by `PyResult`.

The JSON model covers null, booleans, integers, strings, arrays and objects;
JSON number literals with fractional or exponent parts are outside the model
(the scanner's workflow never produces or consumes them).
-/

/-- JSON values, as produced by `json.loads` and consumed by jq.  Objects are
association lists in document order; Python dict semantics (last duplicate
key wins) are modelled by `dictFind`. -/
inductive Json where
  | null : Json
  | bool (b : Bool) : Json
  | num (n : Int) : Json
  | str (s : String) : Json
  | arr (elems : List Json) : Json
  | obj (fields : List (String × Json)) : Json

/-- Induction principle for `Json` giving membership-based hypotheses for the
nested lists. -/
theorem Json.myInd (P : Json → Prop)
    (h0 : P .null) (h1 : ∀ b, P (.bool b)) (h2 : ∀ n, P (.num n)) (h3 : ∀ s, P (.str s))
    (h4 : ∀ xs, (∀ x ∈ xs, P x) → P (.arr xs))
    (h5 : ∀ fs, (∀ kv ∈ fs, P kv.2) → P (.obj fs)) : ∀ j, P j :=
  Json.rec (motive_1 := P) (motive_2 := fun xs => ∀ x ∈ xs, P x)
    (motive_3 := fun fs => ∀ kv ∈ fs, P kv.2) (motive_4 := fun kv => P kv.2)
    h0 h1 h2 h3 h4 h5
    (by simp)
    (fun x xs ihx ihxs y hy => by
      rcases List.mem_cons.mp hy with rfl | hy
      · exact ihx
      · exact ihxs y hy)
    (by simp)
    (fun kv fs ihkv ihfs y hy => by
      rcases List.mem_cons.mp hy with rfl | hy
      · exact ihkv
      · exact ihfs y hy)
    (fun _ _ ihv => ihv)

/-- JSON whitespace characters (also accepted by jq between tokens). -/
def isWs (c : Char) : Bool :=
  c = ' ' || c = '\t' || c = '\n' || c = '\r'

/-- Drop leading JSON whitespace. -/
def skipWs (cs : List Char) : List Char :=
  cs.dropWhile isWs

/-- Python whitespace, as stripped by `str.strip()`. -/
def isPyWs (c : Char) : Bool :=
  c = ' ' || c = '\t' || c = '\n' || c = '\r' || c = '\x0b' || c = '\x0c'

/-- Python `str.strip()`. -/
def pyStrip (s : String) : String :=
  String.mk (((s.data.dropWhile isPyWs).reverse.dropWhile isPyWs).reverse)

/-- The decimal digit character for `n < 10`. -/
def digitChar (n : Nat) : Char :=
  Char.ofNat (48 + n)

/-- Decimal digits of `n`, most significant first; `fuel`-driven so that it
reduces in the kernel (`fuel > n` suffices). -/
def natCharsAux : Nat → Nat → List Char
  | 0, _ => []
  | f + 1, n => if n < 10 then [digitChar n] else natCharsAux f (n / 10) ++ [digitChar (n % 10)]

/-- Decimal representation of a natural number. -/
def natChars (n : Nat) : List Char :=
  natCharsAux (n + 1) n

/-- Decimal representation of an integer (with leading minus sign). -/
def intChars (n : Int) : List Char :=
  if n < 0 then '-' :: natChars n.natAbs else natChars n.toNat

/-- Value of a list of decimal digit characters. -/
def digitsVal (cs : List Char) : Nat :=
  cs.foldl (fun a c => 10 * a + (c.toNat - 48)) 0

/-- Hexadecimal digit character for `n < 16` (lower case, as printed by the
escaper). -/
def hexDigitChar (n : Nat) : Char :=
  if n < 10 then Char.ofNat (48 + n) else Char.ofNat (87 + n)

/-- Value of a hexadecimal digit character, if it is one. -/
def hexVal (c : Char) : Option Nat :=
  if 48 ≤ c.toNat ∧ c.toNat ≤ 57 then some (c.toNat - 48)
  else if 97 ≤ c.toNat ∧ c.toNat ≤ 102 then some (c.toNat - 87)
  else if 65 ≤ c.toNat ∧ c.toNat ≤ 70 then some (c.toNat - 55)
  else none

/-- JSON string-escape of a single character, following jq / `json.dump`
conventions: quote, backslash and the named control escapes get a two-character
escape, all other control characters a `\u00XX` escape, everything else is
emitted verbatim. -/
def escChar (c : Char) : List Char :=
  if c = '"' then ['\\', '"']
  else if c = '\\' then ['\\', '\\']
  else if c = '\x08' then ['\\', 'b']
  else if c = '\t' then ['\\', 't']
  else if c = '\n' then ['\\', 'n']
  else if c = '\x0c' then ['\\', 'f']
  else if c = '\r' then ['\\', 'r']
  else if c.toNat < 32 then
    ['\\', 'u', '0', '0', hexDigitChar (c.toNat / 16), hexDigitChar (c.toNat % 16)]
  else [c]

/-- JSON string-escape of a character sequence. -/
def escape : List Char → List Char
  | [] => []
  | c :: cs => escChar c ++ escape cs

/-- Strip an expected literal prefix, returning the remainder. -/
def stripLit : List Char → List Char → Option (List Char)
  | [], cs => some cs
  | _ :: _, [] => none
  | k :: ks, c :: cs => if c = k then stripLit ks cs else none

/-- Python dict lookup on a JSON object's field list: the *last* binding of a
key wins, matching the dict that `json.loads` builds. -/
def dictFind (kvs : List (String × Json)) (k : String) : Option Json :=
  kvs.foldl (fun acc p => if p.1 = k then some p.2 else acc) none

/-- First-occurrence key deduplication, for Python `len(dict)` and dict
iteration order. -/
def dedupKeysAux : List String → List String → List String
  | _, [] => []
  | seen, k :: ks =>
    if seen.contains k then dedupKeysAux seen ks else k :: dedupKeysAux (k :: seen) ks

/-- The distinct keys of an object's field list, in first-occurrence order. -/
def pyDictKeys (kvs : List (String × Json)) : List String :=
  dedupKeysAux [] (kvs.map Prod.fst)

/-- Indentation: `n` spaces. -/
def indentC (n : Nat) : List Char :=
  List.replicate n ' '

/-- The characters of a keyword literal. -/
def litChars (s : String) : List Char :=
  s.data

mutual

/-- The jq pretty printer (default 2-space indent), as produced by piping a
JSON document through `jq` with the identity filter.  `ind` is the current
indentation of the surrounding context. -/
def fmtVal : Nat → Json → List Char
  | _, .null => litChars "null"
  | _, .bool true => litChars "true"
  | _, .bool false => litChars "false"
  | _, .num n => intChars n
  | _, .str s => '"' :: (escape s.data ++ ['"'])
  | _, .arr [] => ['[', ']']
  | ind, .arr (x :: xs) =>
    '[' :: '\n' :: (fmtItems (ind + 2) (x :: xs) ++ '\n' :: (indentC ind ++ [']']))
  | _, .obj [] => ['\x7b', '\x7d']
  | ind, .obj (f :: fs) =>
    '\x7b' :: '\n' :: (fmtFields (ind + 2) (f :: fs) ++ '\n' :: (indentC ind ++ ['\x7d']))

/-- Pretty-printed array items, one per line at indentation `ind`, separated
by commas. -/
def fmtItems : Nat → List Json → List Char
  | _, [] => []
  | ind, [x] => indentC ind ++ fmtVal ind x
  | ind, x :: y :: xs =>
    indentC ind ++ (fmtVal ind x ++ ',' :: '\n' :: fmtItems ind (y :: xs))

/-- Pretty-printed object fields, one per line at indentation `ind`. -/
def fmtFields : Nat → List (String × Json) → List Char
  | _, [] => []
  | ind, [(k, v)] =>
    indentC ind ++ ('"' :: (escape k.data ++ '"' :: ':' :: ' ' :: fmtVal ind v))
  | ind, (k, v) :: f :: fs =>
    indentC ind ++
      ('"' :: (escape k.data ++ '"' :: ':' :: ' ' :: (fmtVal ind v ++ ',' :: '\n' :: fmtFields ind (f :: fs))))

end

/-- A whole jq output document: the pretty-printed value and the trailing
newline jq prints after each output. -/
def jqFmt (j : Json) : String :=
  String.mk (fmtVal 0 j ++ ['\n'])

mutual

/-- Compact (no whitespace) JSON rendering, as used by `jq -r` for non-string
results. -/
def fmtCompact : Json → List Char
  | .null => litChars "null"
  | .bool true => litChars "true"
  | .bool false => litChars "false"
  | .num n => intChars n
  | .str s => '"' :: (escape s.data ++ ['"'])
  | .arr [] => ['[', ']']
  | .arr (x :: xs) => '[' :: (fmtCompactItems (x :: xs) ++ [']'])
  | .obj [] => ['\x7b', '\x7d']
  | .obj (f :: fs) => '\x7b' :: (fmtCompactFields (f :: fs) ++ ['\x7d'])

/-- Compact rendering of array items. -/
def fmtCompactItems : List Json → List Char
  | [] => []
  | [x] => fmtCompact x
  | x :: y :: xs => fmtCompact x ++ ',' :: fmtCompactItems (y :: xs)

/-- Compact rendering of object fields. -/
def fmtCompactFields : List (String × Json) → List Char
  | [] => []
  | [(k, v)] => '"' :: (escape k.data ++ '"' :: ':' :: fmtCompact v)
  | (k, v) :: f :: fs =>
    '"' :: (escape k.data ++ '"' :: ':' :: (fmtCompact v ++ ',' :: fmtCompactFields (f :: fs)))

end

mutual

/-- Python `repr` of the values `json.loads` can return (containers show
their elements with `repr`, strings with single quotes). -/
def pyRepr : Json → String
  | .null => "None"
  | .bool true => "True"
  | .bool false => "False"
  | .num n => String.mk (intChars n)
  | .str s => "\x27" ++ s ++ "\x27"
  | .arr xs => "[" ++ pyReprItems xs ++ "]"
  | .obj kvs => "\x7b" ++ pyReprFields kvs ++ "\x7d"

/-- Python `repr` of list elements, comma-separated. -/
def pyReprItems : List Json → String
  | [] => ""
  | [x] => pyRepr x
  | x :: y :: xs => pyRepr x ++ ", " ++ pyReprItems (y :: xs)

/-- Python `repr` of dict entries, comma-separated. -/
def pyReprFields : List (String × Json) → String
  | [] => ""
  | [(k, v)] => "\x27" ++ k ++ "\x27: " ++ pyRepr v
  | (k, v) :: f :: fs => "\x27" ++ k ++ "\x27: " ++ pyRepr v ++ ", " ++ pyReprFields (f :: fs)

end

/-- Python `str()` of a `json.loads` value, as interpolated into an f-string:
strings are shown verbatim, everything else with `repr`. -/
def pyStr : Json → String
  | .str s => s
  | j => pyRepr j

/-- Unescape a single-character JSON string escape (everything but `\u`). -/
def unescChar (c : Char) : Option Char :=
  if c = '"' then some '"'
  else if c = '\\' then some '\\'
  else if c = '/' then some '/'
  else if c = 'b' then some '\x08'
  else if c = 'f' then some '\x0c'
  else if c = 'n' then some '\n'
  else if c = 'r' then some '\r'
  else if c = 't' then some '\t'
  else none

/-- Parse the body of a JSON string literal (after the opening quote), up to
and including the closing quote.  Strict about raw control characters, like
Python's `json.loads`.  `fuel` larger than the input length suffices. -/
def parseStringBody : Nat → List Char → Option (List Char × List Char)
  | 0, _ => none
  | _ + 1, [] => none
  | f + 1, c :: cs =>
    if c = '"' then some ([], cs)
    else if c = '\\' then
      match cs with
      | [] => none
      | e :: cs2 =>
        if e = 'u' then
          match cs2 with
          | a :: b :: c3 :: d :: cs3 =>
            match hexVal a, hexVal b, hexVal c3, hexVal d with
            | some va, some vb, some vc, some vd =>
              match parseStringBody f cs3 with
              | some (s, r) =>
                some (Char.ofNat (((va * 16 + vb) * 16 + vc) * 16 + vd) :: s, r)
              | none => none
            | _, _, _, _ => none
          | _ => none
        else
          match unescChar e with
          | some ch =>
            match parseStringBody f cs2 with
            | some (s, r) => some (ch :: s, r)
            | none => none
          | none => none
    else if c.toNat < 32 then none
    else
      match parseStringBody f cs with
      | some (s, r) => some (c :: s, r)
      | none => none

/-- Parse a JSON integer literal (optional minus sign, then digits).  Number
literals with fractional or exponent parts are outside the model. -/
def parseNum (cs : List Char) : Option (Json × List Char) :=
  match cs with
  | [] => none
  | c :: r =>
    if c = '-' then
      if (r.takeWhile Char.isDigit).isEmpty then none
      else some (.num (-(digitsVal (r.takeWhile Char.isDigit) : Int)), r.dropWhile Char.isDigit)
    else
      if ((c :: r).takeWhile Char.isDigit).isEmpty then none
      else
        some (.num (digitsVal ((c :: r).takeWhile Char.isDigit)),
          (c :: r).dropWhile Char.isDigit)

mutual

/-- Parse one JSON value, skipping leading whitespace.  `fuel` bounds the
nesting depth (input length suffices). -/
def parseVal : Nat → List Char → Option (Json × List Char)
  | 0, _ => none
  | f + 1, cs =>
    match skipWs cs with
    | [] => none
    | c :: r =>
      if c = 'n' then
        match stripLit ['u', 'l', 'l'] r with
        | some r2 => some (.null, r2)
        | none => none
      else if c = 't' then
        match stripLit ['r', 'u', 'e'] r with
        | some r2 => some (.bool true, r2)
        | none => none
      else if c = 'f' then
        match stripLit ['a', 'l', 's', 'e'] r with
        | some r2 => some (.bool false, r2)
        | none => none
      else if c = '"' then
        match parseStringBody (r.length + 1) r with
        | some (s, r2) => some (.str (String.mk s), r2)
        | none => none
      else if c = '[' then
        match skipWs r with
        | [] => none
        | c2 :: r2 =>
          if c2 = ']' then some (.arr [], r2)
          else
            match parseElems f (c2 :: r2) with
            | some (xs, r3) => some (.arr xs, r3)
            | none => none
      else if c = '\x7b' then
        match skipWs r with
        | [] => none
        | c2 :: r2 =>
          if c2 = '\x7d' then some (.obj [], r2)
          else
            match parseFields f (c2 :: r2) with
            | some (fs, r3) => some (.obj fs, r3)
            | none => none
      else if c = '-' ∨ c.isDigit then parseNum (c :: r)
      else none

/-- Parse the elements of a non-empty JSON array (after the opening bracket),
up to and including the closing bracket. -/
def parseElems : Nat → List Char → Option (List Json × List Char)
  | 0, _ => none
  | f + 1, cs =>
    match parseVal f cs with
    | none => none
    | some (v, cs1) =>
      match skipWs cs1 with
      | [] => none
      | c2 :: r =>
        if c2 = ',' then
          match parseElems f r with
          | some (xs, r2) => some (v :: xs, r2)
          | none => none
        else if c2 = ']' then some ([v], r)
        else none

/-- Parse the fields of a non-empty JSON object (after the opening brace),
up to and including the closing brace. -/
def parseFields : Nat → List Char → Option (List (String × Json) × List Char)
  | 0, _ => none
  | f + 1, cs =>
    match skipWs cs with
    | [] => none
    | c0 :: r =>
      if c0 = '"' then
        match parseStringBody (r.length + 1) r with
        | none => none
        | some (k, cs1) =>
          match skipWs cs1 with
          | [] => none
          | c1 :: cs2 =>
            if c1 = ':' then
              match parseVal f cs2 with
              | none => none
              | some (v, cs3) =>
                match skipWs cs3 with
                | [] => none
                | c3 :: r2 =>
                  if c3 = ',' then
                    match parseFields f r2 with
                    | some (fs, r3) => some ((String.mk k, v) :: fs, r3)
                    | none => none
                  else if c3 = '\x7d' then some ([(String.mk k, v)], r2)
                  else none
            else none
      else none

end

/-- Parse a whole JSON document: one value, with only whitespace around it.
This models both Python's `json.loads` and jq's input parsing of the
documents the scanner exchanges. -/
def parseJson (s : String) : Option Json :=
  match parseVal (s.data.length + 1) s.data with
  | some (j, rest) => if skipWs rest = [] then some j else none
  | none => none

/-- Python exceptions that the modelled code can raise. -/
inductive PyError where
  | environmentError (msg : String) : PyError
  | typeError : PyError
  | attributeError : PyError
  | valueError (msg : String) : PyError
  | calledProcessError : PyError
  | jsonDecodeError : PyError
  deriving DecidableEq

/-- Result of running a piece of Python code: a value, or an uncaught
exception. -/
inductive PyResult (α : Type) where
  | ok (a : α) : PyResult α
  | exn (e : PyError) : PyResult α
  deriving DecidableEq

/-- Python `obj.get(key, default)`: only dicts have `.get`; every other value
raises `AttributeError`. -/
def pyGet (j : Json) (k : String) (dflt : Json) : PyResult Json :=
  match j with
  | .obj kvs => .ok ((dictFind kvs k).getD dflt)
  | _ => .exn .attributeError

/-- Python iteration over a `json.loads` value: lists yield their elements,
strings their characters, dicts their keys; everything else raises
`TypeError`. -/
def pyIter : Json → PyResult (List Json)
  | .arr xs => .ok xs
  | .str s => .ok (s.data.map (fun c => .str (String.mk [c])))
  | .obj kvs => .ok ((pyDictKeys kvs).map .str)
  | _ => .exn .typeError

/-- Python `len()` on a `json.loads` value: strings, lists and dicts are
sized; everything else raises `TypeError`. -/
def pyLen : Json → PyResult Nat
  | .str s => .ok s.length
  | .arr xs => .ok xs.length
  | .obj kvs => .ok (pyDictKeys kvs).length
  | _ => .exn .typeError

/-- Left-to-right effectful map, propagating the first exception, as a Python
list comprehension does. -/
def mapPy (f : Json → PyResult Json) : List Json → PyResult (List Json)
  | [] => .ok []
  | x :: xs =>
    match f x with
    | .exn e => .exn e
    | .ok v =>
      match mapPy f xs with
      | .exn e => .exn e
      | .ok vs => .ok (v :: vs)

/-- The environment variables of the process. -/
def Env : Type :=
  String → Option String

/-- Python truthiness of `os.environ.get(v)`: `None` and the empty string are
falsy. -/
def envTruthy (env : Env) (v : String) : Bool :=
  match env v with
  | none => false
  | some s => !s.isEmpty

/-- The required environment variables checked by `SecretsScanner.__init__`. -/
def requiredVars : List String :=
  ["HCP_ORGANIZATION_ID", "HCP_PROJECT_ID", "HCP_APP_NAME"]

/-- The list `missing_vars` computed by the constructor. -/
def missingVars (env : Env) : List String :=
  requiredVars.filter (fun v => !(envTruthy env v))

/-- The state of a constructed `SecretsScanner`. -/
structure SecretsScanner where
  secret_length : Nat
  base_url : String

/-- The constructor `SecretsScanner.__init__`: checks the required variables,
raising `EnvironmentError` naming all missing ones, then derives the base
URL.  It performs no file or network access. -/
def SecretsScanner.init (env : Env) : PyResult SecretsScanner :=
  if missingVars env = [] then
    .ok
      { secret_length := 20
        base_url :=
          "https://api.cloud.hashicorp.com/secrets/2023-11-28" ++
            "/organizations/" ++ ((env "HCP_ORGANIZATION_ID").getD "") ++
            "/projects/" ++ ((env "HCP_PROJECT_ID").getD "") ++
            "/apps/" ++ ((env "HCP_APP_NAME").getD "") }
  else
    .exn (.environmentError
      ("Missing required environment variables: " ++ String.intercalate ", " (missingVars env)))

/-- The outcome of `open(file_path, 'r')` followed by reading: the file may be
missing, raise some other I/O error, or yield its contents. -/
inductive FileRead where
  | missing : FileRead
  | ioError (msg : String) : FileRead
  | content (s : String) : FileRead

/-- The extraction `secret.get('static_version', {}).get('value', 'No value found')`
performed for each secret record. -/
def extractValue (secret : Json) : PyResult Json :=
  match pyGet secret "static_version" (.obj []) with
  | .exn e => .exn e
  | .ok sv => pyGet sv "value" (.str "No value found")

/-- The code after the `try` block of `_get_secret_values`:
`data.get('secrets', [])` followed by the list comprehension.  Runs outside
the exception handler. -/
def extractAll (data : Json) : PyResult (List Json) :=
  match pyGet data "secrets" (.arr []) with
  | .exn e => .exn e
  | .ok secrets =>
    match pyIter secrets with
    | .exn e => .exn e
    | .ok xs => mapPy extractValue xs

/-- The method `SecretsScanner._get_secret_values`: parse the file, catching
`FileNotFoundError`, `json.JSONDecodeError` and any other exception with a
printed message and an empty result, then extract the values.  Returns the
result together with the lines printed. -/
def get_secret_values (file_path : String) (f : FileRead) :
    PyResult (List Json) × List String :=
  match f with
  | .missing => (.ok [], ["Error: The file " ++ file_path ++ " does not exist."])
  | .ioError msg => (.ok [], ["An unexpected error occurred: " ++ msg])
  | .content s =>
    match parseJson s with
    | none => (.ok [], ["Error: The file " ++ file_path ++ " does not contain valid JSON."])
    | some data => (extractAll data, [])

/-- The validation message for an undersized secret value. -/
def shortMsg (v : Json) (n : Nat) : String :=
  "Secret " ++ pyStr v ++ " is too short: " ++ String.mk (natChars n) ++ " characters"

/-- The loop of `check_secrets`: for each value, compare `len` with the
threshold and collect/print the message.  Returns the collected messages (or
the first exception) and the lines printed before any exception. -/
def checkLoop (threshold : Nat) : List Json → PyResult (List String) × List String
  | [] => (.ok [], [])
  | v :: vs =>
    match pyLen v with
    | .exn e => (.exn e, [])
    | .ok n =>
      if n ≤ threshold then
        match checkLoop threshold vs with
        | (.ok ms, pr) => (.ok (shortMsg v n :: ms), shortMsg v n :: pr)
        | (.exn e, pr) => (.exn e, shortMsg v n :: pr)
      else checkLoop threshold vs

/-- The observable outcome of a `check_secrets` call. -/
structure CheckOutcome where
  result : PyResult (List String)
  printed : List String

/-- The method `SecretsScanner.check_secrets`. -/
def SecretsScanner.check_secrets (self : SecretsScanner) (file_path : String)
    (f : FileRead) : CheckOutcome :=
  match get_secret_values file_path f with
  | (.exn e, out) => ⟨.exn e, out⟩
  | (.ok vals, out) =>
    match checkLoop self.secret_length vals with
    | (res, pr) => ⟨res, out ++ pr⟩

/-- Rendering of a jq output value under `-r` (raw): strings are printed
without quotes, everything else as compact JSON. -/
def jqRawRender (v : Json) : String :=
  match v with
  | .str s => s
  | _ => String.mk (fmtCompact v)

/-- Running `jq -r '.access_token'` on the given stdin.  Empty (or
whitespace-only) input yields no output values and exits 0; invalid JSON is a
parse error (nonzero exit); indexing a non-object, non-null value is a
runtime error (nonzero exit); otherwise the field's value (or `null` when the
field is absent or the input is `null`) is printed followed by a newline. -/
def jqAccessTokenRun (input : String) : Except Unit String :=
  if skipWs input.data = [] then .ok ""
  else
    match parseJson input with
    | none => .error ()
    | some j =>
      match j with
      | .obj kvs => .ok (jqRawRender ((dictFind kvs "access_token").getD .null) ++ "\n")
      | .null => .ok "null\n"
      | _ => .error ()

/-- The method `SecretsScanner._generate_hcp_api_token`.  The stdout of the
`curl` call to the identity endpoint is the input (`Except.error` meaning a
nonzero exit, raised as `CalledProcessError` by `check=True`). -/
def generate_hcp_api_token (tokenCurl : Except String String) : PyResult String :=
  match tokenCurl with
  | .error _ => .exn .calledProcessError
  | .ok out =>
    let jsonOutput := pyStrip out
    match jqAccessTokenRun jsonOutput with
    | .error _ => .exn .calledProcessError
    | .ok tokOut =>
      let token := pyStrip tokOut
      if token.isEmpty then .exn (.valueError "No access token found in the response.")
      else .ok token

/-- Running `jq` (identity filter) on the given stdin: empty input yields no
output, invalid JSON is a parse error, otherwise the pretty-printed document
(with its trailing newline). -/
def jqPrettyRun (input : String) : Except Unit String :=
  if skipWs input.data = [] then .ok ""
  else
    match parseJson input with
    | none => .error ()
    | some j => .ok (jqFmt j)

/-- The observable outcome of a `fetch_hcp_secrets` call: its return value or
exception, and the content written to `test_secrets.json` (the `open(..., 'w')`
truncates, so any previous content is replaced). -/
structure FetchOutcome where
  result : PyResult Json
  fileWritten : Option String

/-- The method `SecretsScanner.fetch_hcp_secrets`: generate a token, run the
`curl` GET against `<base_url>/secrets:open` (its stdout is the
`secretsCurl` input), format the response with `jq`, write the formatted text
to `test_secrets.json`, print it, and return `json.loads` of it. -/
def fetch_hcp_secrets (tokenCurl secretsCurl : Except String String) : FetchOutcome :=
  match generate_hcp_api_token tokenCurl with
  | .exn e => ⟨.exn e, none⟩
  | .ok _token =>
    match secretsCurl with
    | .error _ => ⟨.exn .calledProcessError, none⟩
    | .ok body =>
      match jqPrettyRun body with
      | .error _ => ⟨.exn .calledProcessError, none⟩
      | .ok jsonOutput =>
        match parseJson jsonOutput with
        | none => ⟨.exn .jsonDecodeError, some jsonOutput⟩
        | some j => ⟨.ok j, some jsonOutput⟩

/-- The parameters of `fetch_hcp_secrets` besides `self`: there are none. -/
def fetchParams : List String :=
  []

/-- A Python call of `fetch_hcp_secrets` with the given positional arguments:
an argument-count mismatch raises `TypeError` before the body runs. -/
def callFetchHcpSecrets (args : List String) (tokenCurl secretsCurl : Except String String) :
    FetchOutcome :=
  if args.length = fetchParams.length then fetch_hcp_secrets tokenCurl secretsCurl
  else ⟨.exn .typeError, none⟩

/-- A CLI subcommand invocation, carrying the external inputs its execution
consumes. -/
inductive SubCmd where
  | check (filename : String) (f : FileRead) : SubCmd
  | fetch (filename : String) (tokenCurl secretsCurl : Except String String) : SubCmd

/-- The observable outcome of one CLI invocation. -/
structure CliOutcome where
  exitCode : Nat
  stdoutLines : List String
  readEnv : Bool
  ranNetwork : Bool

/-- The Typer application of `cli.py`.  The eager `--version`/`-v` callback
echoes `"<app_name> v<version>"` and raises `typer.Exit()` (exit 0) before
any subcommand logic; otherwise the subcommand constructs a `SecretsScanner`
(reading the environment) and runs; an uncaught exception makes the process
exit 1; a missing subcommand is a Typer usage error (exit 2). -/
def cliRun (app_name version : String) (versionFlag : Bool) (cmd : Option SubCmd)
    (env : Env) : CliOutcome :=
  if versionFlag then ⟨0, [app_name ++ " v" ++ version], false, false⟩
  else
    match cmd with
    | none => ⟨2, [], false, false⟩
    | some (.check filename f) =>
      match SecretsScanner.init env with
      | .exn _ => ⟨1, [], true, false⟩
      | .ok sc =>
        let co := sc.check_secrets filename f
        match co.result with
        | .ok _ => ⟨0, co.printed, true, false⟩
        | .exn _ => ⟨1, co.printed, true, false⟩
    | some (.fetch filename tokenCurl secretsCurl) =>
      match SecretsScanner.init env with
      | .exn _ => ⟨1, [], true, false⟩
      | .ok _ =>
        let ranCurl := decide ([filename].length = fetchParams.length)
        match callFetchHcpSecrets [filename] tokenCurl secretsCurl with
        | ⟨.ok _, _⟩ => ⟨0, [], true, ranCurl⟩
        | ⟨.exn _, _⟩ => ⟨1, [], true, ranCurl⟩

/-- C2: for every file path, a missing file, invalid JSON content, or any
other I/O error while reading makes `check_secrets` print the specific
condition and return an empty result; no exception escapes in these cases. -/
theorem c2_check_recovers_read_errors (sc : SecretsScanner) (path msg s : String)
    (hbad : parseJson s = none) :
    (sc.check_secrets path .missing).result = .ok [] ∧
    (sc.check_secrets path .missing).printed =
      ["Error: The file " ++ path ++ " does not exist."] ∧
    (sc.check_secrets path (.ioError msg)).result = .ok [] ∧
    (sc.check_secrets path (.ioError msg)).printed =
      ["An unexpected error occurred: " ++ msg] ∧
    (sc.check_secrets path (.content s)).result = .ok [] ∧
    (sc.check_secrets path (.content s)).printed =
      ["Error: The file " ++ path ++ " does not contain valid JSON."] := by
  refine ⟨?_, ?_, ?_, ?_, ?_, ?_⟩ <;>
    simp [SecretsScanner.check_secrets, get_secret_values, checkLoop, hbad]

/-- Witness for C2 at a concrete path and concrete invalid JSON content. -/
theorem c2_witness :
    parseJson "oops" = none ∧
    ((⟨20, ""⟩ : SecretsScanner).check_secrets "f.json" .missing).result = .ok [] ∧
    ((⟨20, ""⟩ : SecretsScanner).check_secrets "f.json" (.content "oops")).result = .ok [] :=
  ⟨rfl, (c2_check_recovers_read_errors ⟨20, ""⟩ "f.json" "boom" "oops" rfl).1,
    (c2_check_recovers_read_errors ⟨20, ""⟩ "f.json" "boom" "oops" rfl).2.2.2.2.1⟩

/-- C10: the recovery handler of the check operation covers only opening and
parsing the file; on a file whose content is the valid JSON array `[]` the
extraction of `secrets` runs outside the handler and `check_secrets` raises
(`AttributeError`), instead of returning an empty result. -/
theorem c10_nonobject_document_raises (sc : SecretsScanner) (path : String) :
    (sc.check_secrets path (.content "[]")).result = .exn .attributeError := rfl

/-- C7: with the --version flag the CLI prints the application name and
version in the form name-space-v-version and exits 0, regardless of any
subcommand, without reading the environment and without network activity. -/
theorem c7_version_flag_eager (app_name version : String) (cmd : Option SubCmd) (env : Env) :
    cliRun app_name version true cmd env =
      ⟨0, [app_name ++ " v" ++ version], false, false⟩ := rfl

/-- C4 (documenting the code bug): the `fetch` subcommand passes its filename
option as a positional argument to `fetch_hcp_secrets`, which takes none, so
every invocation raises `TypeError` and the CLI exits 1 even when both HTTP
calls would succeed; it never exits 0. -/
theorem c4_fetch_always_type_error (filename : String)
    (tokenCurl secretsCurl : Except String String) :
    callFetchHcpSecrets [filename] tokenCurl secretsCurl = ⟨.exn .typeError, none⟩ ∧
    (cliRun "hcvss" "0.1.0" false (some (.fetch filename tokenCurl secretsCurl))
        (fun _ => some "x")).exitCode = 1 :=
  ⟨rfl, rfl⟩

/-- C8 (documenting the code bug): on the identity response `\x7b\x7d`, which
parses but contains no access token, `jq -r .access_token` prints `null`, so
the token generator returns the literal string `"null"` instead of raising
the "No access token found" error. -/
theorem c8_missing_token_returns_null :
    generate_hcp_api_token (.ok "\x7b\x7d") = .ok "null" ∧
    generate_hcp_api_token (.ok "\x7b\x7d") ≠
      .exn (.valueError "No access token found in the response.") :=
  ⟨rfl, by decide⟩

/-- C5: whenever at least one required environment variable is missing (or
falsy), the constructor raises an `EnvironmentError` whose message joins the
full list of missing variables, and every non-truthy required variable is in
that list.  The constructor performs no network activity at all. -/
theorem c5_init_lists_all_missing (env : Env) (h : missingVars env ≠ []) :
    SecretsScanner.init env =
      .exn (.environmentError
        ("Missing required environment variables: " ++
          String.intercalate ", " (missingVars env))) ∧
    ∀ v ∈ requiredVars, envTruthy env v = false → v ∈ missingVars env := by
  refine ⟨?_, ?_⟩
  · simp [SecretsScanner.init, h]
  · intro v hv ht
    simp [missingVars, List.mem_filter, hv, ht]

/-- Witness for C5: with all three variables absent, the message names all
three. -/
theorem c5_witness :
    missingVars (fun _ => none) ≠ [] ∧
    SecretsScanner.init (fun _ => none) =
      .exn (.environmentError
        "Missing required environment variables: HCP_ORGANIZATION_ID, HCP_PROJECT_ID, HCP_APP_NAME") :=
  ⟨by decide, (c5_init_lists_all_missing (fun _ => none) (by decide)).1.trans rfl⟩

/-- C9: a required environment variable set to the empty string is treated
exactly like an absent one: it appears in the missing list, the constructor's
outcome is unchanged if the variable is removed entirely, and the
configuration error is raised. -/
theorem c9_empty_string_counts_as_missing (env : Env) (v : String)
    (hv : v ∈ requiredVars) (he : env v = some "") :
    v ∈ missingVars env ∧
    SecretsScanner.init env = SecretsScanner.init (fun w => if w = v then none else env w) ∧
    ∃ msg, SecretsScanner.init env = .exn (.environmentError msg) := by
  have htr : envTruthy env v = false := by
    simp [envTruthy, he]
    decide
  have hmem : v ∈ missingVars env := by simp [missingVars, List.mem_filter, hv, htr]
  have hne : missingVars env ≠ [] := by
    intro h0
    rw [h0] at hmem
    exact List.not_mem_nil v hmem
  have hsame : missingVars (fun w => if w = v then none else env w) = missingVars env := by
    unfold missingVars
    apply List.filter_congr
    intro w hw
    by_cases hwv : w = v
    · subst hwv
      simp [envTruthy, he]
      decide
    · simp [envTruthy, hwv]
  refine ⟨hmem, ?_, ?_⟩
  · unfold SecretsScanner.init
    rw [hsame]
    simp only [if_neg hne]
  · exact ⟨"Missing required environment variables: " ++
      String.intercalate ", " (missingVars env), by simp [SecretsScanner.init, hne]⟩

/-- Witness for C9 with `HCP_APP_NAME` present but empty. -/
theorem c9_witness :
    "HCP_APP_NAME" ∈ missingVars (fun w => if w = "HCP_APP_NAME" then some "" else some "x") ∧
    ∃ msg,
      SecretsScanner.init (fun w => if w = "HCP_APP_NAME" then some "" else some "x") =
        .exn (.environmentError msg) :=
  ⟨(c9_empty_string_counts_as_missing (fun w => if w = "HCP_APP_NAME" then some "" else some "x")
      "HCP_APP_NAME" (by decide) (by decide)).1,
    (c9_empty_string_counts_as_missing (fun w => if w = "HCP_APP_NAME" then some "" else some "x")
      "HCP_APP_NAME" (by decide) (by decide)).2.2⟩

/-- Counterexample to C3 as stated: the default string `"No value found"` has
14 characters, not 15, so the emitted message reports 14 characters and the
stated message with 15 is not produced. -/
theorem c3_counterexample :
    ("No value found").length = 14 ∧
    ((⟨20, ""⟩ : SecretsScanner).check_secrets "test_secrets.json"
        (.content "\x7b\"secrets\": [\x7b\x7d]\x7d")).result =
      .ok ["Secret No value found is too short: 14 characters"] ∧
    ((⟨20, ""⟩ : SecretsScanner).check_secrets "test_secrets.json"
        (.content "\x7b\"secrets\": [\x7b\x7d]\x7d")).result ≠
      .ok ["Secret No value found is too short: 15 characters"] :=
  ⟨rfl, rfl, by decide⟩

/-- C3 (amended): a record lacking `static_version` (or whose
`static_version` object lacks `value`) extracts the literal
`"No value found"`, whose length is 14, hence it is always flagged
(14 is at most 20) with the message
"Secret No value found is too short: 14 characters". -/
theorem c3_default_value_always_flagged (sc : SecretsScanner) (path s : String)
    (dkvs kvs : List (String × Json))
    (hlen : sc.secret_length = 20)
    (hparse : parseJson s = some (.obj dkvs))
    (hsecrets : dictFind dkvs "secrets" = some (.arr [.obj kvs]))
    (hmiss : dictFind kvs "static_version" = none ∨
      ∃ kvs2, dictFind kvs "static_version" = some (.obj kvs2) ∧
        dictFind kvs2 "value" = none) :
    extractValue (.obj kvs) = .ok (.str "No value found") ∧
    ("No value found").length = 14 ∧ 14 ≤ 20 ∧
    (sc.check_secrets path (.content s)).result =
      .ok ["Secret No value found is too short: 14 characters"] := by
  have hex : extractValue (.obj kvs) = .ok (.str "No value found") := by
    have hred : extractValue (.obj kvs) =
        pyGet ((dictFind kvs "static_version").getD (.obj [])) "value" (.str "No value found") :=
      rfl
    rcases hmiss with h | ⟨kvs2, h1, h2⟩
    · rw [hred, h]
      rfl
    · rw [hred, h1]
      simp [pyGet, h2]
  refine ⟨hex, rfl, by decide, ?_⟩
  have hpipe : (sc.check_secrets path (.content s)).result =
      (checkLoop sc.secret_length [.str "No value found"]).1 := by
    simp [SecretsScanner.check_secrets, get_secret_values, hparse, extractAll, pyGet,
      hsecrets, pyIter, mapPy, hex]
  rw [hpipe, hlen]
  rfl

/-- Witness for the amended C3 on the concrete file content with one record
that has no `static_version` key. -/
theorem c3_witness :
    parseJson "\x7b\"secrets\": [\x7b\x7d]\x7d" = some (.obj [("secrets", .arr [.obj []])]) ∧
    ((⟨20, ""⟩ : SecretsScanner).check_secrets "test_secrets.json"
        (.content "\x7b\"secrets\": [\x7b\x7d]\x7d")).result =
      .ok ["Secret No value found is too short: 14 characters"] :=
  ⟨rfl,
    (c3_default_value_always_flagged ⟨20, ""⟩ "test_secrets.json"
      "\x7b\"secrets\": [\x7b\x7d]\x7d" [("secrets", .arr [.obj []])] []
      rfl rfl rfl (Or.inl rfl)).2.2.2⟩

/-- Helper for C1: when every record extracts to a string value, the
extraction comprehension succeeds and the 20-character check loop emits
exactly the expected message for each undersized value, in record order. -/
theorem mapPy_checkLoop_strings (rs : List Json)
    (h : ∀ r ∈ rs, ∃ v, extractValue r = .ok (.str v)) :
    ∃ ws, mapPy extractValue rs = .ok ws ∧
      (checkLoop 20 ws).1 = .ok (rs.filterMap (fun r =>
        match extractValue r with
        | .ok (.str v) =>
          if v.length ≤ 20 then
            some ("Secret " ++ v ++ " is too short: " ++ String.mk (natChars v.length) ++
              " characters")
          else none
        | _ => none)) := by
  induction rs with
  | nil => exact ⟨[], rfl, rfl⟩
  | cons r rs ih =>
    obtain ⟨v, hv⟩ := h r (List.mem_cons_self r rs)
    obtain ⟨ws, hws, hcl⟩ := ih (fun x hx => h x (List.mem_cons_of_mem r hx))
    refine ⟨.str v :: ws, by simp [mapPy, hv, hws], ?_⟩
    rcases hpair : checkLoop 20 ws with ⟨res2, pr2⟩
    rw [hpair] at hcl
    simp only at hcl
    subst hcl
    by_cases hle : v.length ≤ 20
    · simp [checkLoop, pyLen, hpair, hle, List.filterMap_cons, hv, shortMsg, pyStr]
    · simp [checkLoop, pyLen, hpair, hle, List.filterMap_cons, hv]

/-- C1: for every secrets file whose document is an object with a `secrets`
array all of whose records extract to string values, `check_secrets` returns
exactly one message of the fixed form
"Secret value is too short: length characters" for each record whose value
has length at most 20, no message for longer values, in record order. -/
theorem c1_check_secrets_messages (sc : SecretsScanner) (path s : String)
    (dkvs : List (String × Json)) (records : List Json)
    (hlen : sc.secret_length = 20)
    (hparse : parseJson s = some (.obj dkvs))
    (hsecrets : dictFind dkvs "secrets" = some (.arr records))
    (hvals : ∀ r ∈ records, ∃ v, extractValue r = .ok (.str v)) :
    (sc.check_secrets path (.content s)).result =
      .ok (records.filterMap (fun r =>
        match extractValue r with
        | .ok (.str v) =>
          if v.length ≤ 20 then
            some ("Secret " ++ v ++ " is too short: " ++ String.mk (natChars v.length) ++
              " characters")
          else none
        | _ => none)) := by
  obtain ⟨ws, hws, hcl⟩ := mapPy_checkLoop_strings records hvals
  have hpipe : (sc.check_secrets path (.content s)).result =
      (checkLoop sc.secret_length ws).1 := by
    simp [SecretsScanner.check_secrets, get_secret_values, hparse, extractAll, pyGet,
      hsecrets, pyIter, hws]
  rw [hpipe, hlen, hcl]

/-- Witness for C1 on the concrete two-record scenario of the specification:
one 5-character value and one 34-character value. -/
theorem c1_witness :
    parseJson "\x7b\"secrets\": [\x7b\"static_version\": \x7b\"value\": \"short\"\x7d\x7d, \x7b\"static_version\": \x7b\"value\": \"this_is_a_long_enough_secret_value\"\x7d\x7d]\x7d" =
      some (.obj [("secrets", .arr
        [.obj [("static_version", .obj [("value", .str "short")])],
         .obj [("static_version", .obj [("value", .str "this_is_a_long_enough_secret_value")])]])]) ∧
    ((⟨20, ""⟩ : SecretsScanner).check_secrets "test_secrets.json"
        (.content "\x7b\"secrets\": [\x7b\"static_version\": \x7b\"value\": \"short\"\x7d\x7d, \x7b\"static_version\": \x7b\"value\": \"this_is_a_long_enough_secret_value\"\x7d\x7d]\x7d")).result =
      .ok ["Secret short is too short: 5 characters"] := by
  refine ⟨rfl, ?_⟩
  have h := c1_check_secrets_messages ⟨20, ""⟩ "test_secrets.json"
    "\x7b\"secrets\": [\x7b\"static_version\": \x7b\"value\": \"short\"\x7d\x7d, \x7b\"static_version\": \x7b\"value\": \"this_is_a_long_enough_secret_value\"\x7d\x7d]\x7d"
    [("secrets", .arr
      [.obj [("static_version", .obj [("value", .str "short")])],
       .obj [("static_version", .obj [("value", .str "this_is_a_long_enough_secret_value")])]])]
    [.obj [("static_version", .obj [("value", .str "short")])],
     .obj [("static_version", .obj [("value", .str "this_is_a_long_enough_secret_value")])]]
    rfl rfl rfl ?_
  · exact h.trans rfl
  · intro r hr
    rcases List.mem_cons.mp hr with rfl | hr2
    · exact ⟨"short", rfl⟩
    · rcases List.mem_cons.mp hr2 with rfl | hr3
      · exact ⟨"this_is_a_long_enough_secret_value", rfl⟩
      · exact absurd hr3 (List.not_mem_nil r)

/-- Packing a small scalar value back into a `Char` recovers the character. -/
theorem charOfNat_toNat_small (c : Char) (h : c.toNat < 32) : Char.ofNat c.toNat = c := by
  have hv : (c.toNat).isValidChar := Or.inl (by omega)
  apply Char.eq_of_val_eq
  rw [Char.ofNat, dif_pos hv]
  rw [Char.ofNatAux]
  apply UInt32.eq_of_toBitVec_eq
  apply BitVec.eq_of_toNat_eq
  rfl

/-- Skipping whitespace leaves a list headed by a non-whitespace character
unchanged. -/
theorem skipWs_cons_not_ws (c : Char) (r : List Char) (h : isWs c = false) :
    skipWs (c :: r) = c :: r := by
  simp [skipWs, List.dropWhile_cons, h]

/-- Skipping whitespace absorbs a whitespace head. -/
theorem skipWs_cons_ws (c : Char) (r : List Char) (h : isWs c = true) :
    skipWs (c :: r) = skipWs r := by
  simp [skipWs, List.dropWhile_cons, h]

/-- Skipping whitespace absorbs an indentation prefix. -/
theorem skipWs_indent (n : Nat) (r : List Char) : skipWs (indentC n ++ r) = skipWs r := by
  induction n with
  | zero => rfl
  | succ n ih =>
    rw [show indentC (n + 1) = ' ' :: indentC n from by simp [indentC, List.replicate_succ]]
    rw [List.cons_append, skipWs_cons_ws ' ' _ (by decide), ih]

/-- Skipping whitespace is idempotent. -/
theorem skipWs_idem (cs : List Char) : skipWs (skipWs cs) = skipWs cs := by
  induction cs with
  | nil => rfl
  | cons c cs ih =>
    by_cases h : isWs c = true
    · rw [skipWs_cons_ws c cs h, ih]
    · rw [skipWs_cons_not_ws c cs (by revert h; cases isWs c <;> simp),
        skipWs_cons_not_ws c cs (by revert h; cases isWs c <;> simp)]

/-- Digit characters are decimal digits. -/
theorem digitChar_isDigit (n : Nat) (h : n < 10) : (digitChar n).isDigit = true := by
  interval_cases n <;> decide

/-- The digit printer is fuel-independent above its bound. -/
theorem natCharsAux_extra (f1 f2 n : Nat) (h1 : n < f1) (h2 : n < f2) :
    natCharsAux f1 n = natCharsAux f2 n := by
  induction n using Nat.strongRecOn generalizing f1 f2 with
  | _ n ih =>
    cases f1 with
    | zero => omega
    | succ f1 =>
      cases f2 with
      | zero => omega
      | succ f2 =>
        simp only [natCharsAux]
        split
        · rfl
        · have hd : n / 10 < n := Nat.div_lt_self (by omega) (by omega)
          rw [ih (n / 10) hd f1 f2 (by omega) (by omega)]

/-- All characters of `natChars` are decimal digits. -/
theorem natCharsAux_all_digits (n : Nat) : ∀ f, n < f → ∀ c ∈ natCharsAux f n, c.isDigit = true := by
  induction n using Nat.strongRecOn with
  | _ n ih =>
    intro f hf c hc
    cases f with
    | zero => omega
    | succ f =>
      simp only [natCharsAux] at hc
      by_cases h10 : n < 10
      · rw [if_pos h10] at hc
        simp at hc
        subst hc
        exact digitChar_isDigit n h10
      · rw [if_neg h10] at hc
        rcases List.mem_append.mp hc with hm | hm
        · have hd : n / 10 < n := Nat.div_lt_self (by omega) (by omega)
          exact ih (n / 10) hd f (by omega) c hm
        · simp at hm
          subst hm
          exact digitChar_isDigit (n % 10) (Nat.mod_lt n (by omega))

/-- All characters of `natChars` are decimal digits. -/
theorem natChars_all_digits (n : Nat) : ∀ c ∈ natChars n, c.isDigit = true :=
  natCharsAux_all_digits n (n + 1) (by omega)

/-- The digit printer never yields the empty list. -/
theorem natChars_ne_nil (n : Nat) : natChars n ≠ [] := by
  unfold natChars natCharsAux
  split
  · simp
  · simp

/-- Reading one more digit multiplies the accumulated value by ten. -/
theorem digitsVal_append_digit (xs : List Char) (c : Char) :
    digitsVal (xs ++ [c]) = 10 * digitsVal xs + (c.toNat - 48) := by
  simp [digitsVal, List.foldl_append]

/-- Reading back the printed digits of `n` recovers `n`. -/
theorem digitsVal_natCharsAux (n : Nat) : ∀ f, n < f → digitsVal (natCharsAux f n) = n := by
  induction n using Nat.strongRecOn with
  | _ n ih =>
    intro f hf
    cases f with
    | zero => omega
    | succ f =>
      simp only [natCharsAux]
      by_cases h10 : n < 10
      · rw [if_pos h10]
        interval_cases n <;> decide
      · rw [if_neg h10]
        rw [digitsVal_append_digit]
        have hd : n / 10 < n := Nat.div_lt_self (by omega) (by omega)
        rw [ih (n / 10) hd f (by omega)]
        have hm : (digitChar (n % 10)).toNat - 48 = n % 10 := by
          have h9 : n % 10 < 10 := Nat.mod_lt n (by omega)
          generalize hg : n % 10 = m at h9 ⊢
          interval_cases m <;> decide
        rw [hm]
        omega

/-- Reading back the printed digits of `n` recovers `n`. -/
theorem digitsVal_natChars (n : Nat) : digitsVal (natChars n) = n :=
  digitsVal_natCharsAux n (n + 1) (by omega)

/-- The head of the remainder does not satisfy `p` (vacuously for the empty
remainder). -/
def headFails (p : Char → Bool) : List Char → Prop
  | [] => True
  | c :: _ => p c = false

/-- takeWhile of a satisfying block followed by a failing head returns the
block. -/
theorem takeWhile_block (p : Char → Bool) (ds rest : List Char)
    (h : ∀ c ∈ ds, p c = true) (h2 : headFails p rest) :
    (ds ++ rest).takeWhile p = ds := by
  induction ds with
  | nil =>
    cases rest with
    | nil => rfl
    | cons c r =>
      simp only [headFails] at h2
      simp [List.takeWhile_cons, h2]
  | cons d ds ih =>
    have hd : p d = true := h d (List.mem_cons_self d ds)
    simp only [List.cons_append, List.takeWhile_cons, hd]
    simp [ih (fun c hc => h c (List.mem_cons_of_mem d hc))]

/-- dropWhile of a satisfying block followed by a failing head returns the
remainder. -/
theorem dropWhile_block (p : Char → Bool) (ds rest : List Char)
    (h : ∀ c ∈ ds, p c = true) (h2 : headFails p rest) :
    (ds ++ rest).dropWhile p = rest := by
  induction ds with
  | nil =>
    cases rest with
    | nil => rfl
    | cons c r =>
      simp only [headFails] at h2
      simp [List.dropWhile_cons, h2]
  | cons d ds ih =>
    have hd : p d = true := h d (List.mem_cons_self d ds)
    simp only [List.cons_append, List.dropWhile_cons, hd]
    simp [ih (fun c hc => h c (List.mem_cons_of_mem d hc))]

/-- Parsing the printed decimal form of an integer recovers it, whenever no
further digit follows. -/
theorem parseNum_intChars (n : Int) (rest : List Char) (h : headFails Char.isDigit rest) :
    parseNum (intChars n ++ rest) = some (.num n, rest) := by
  by_cases hn : n < 0
  · simp only [intChars, if_pos hn, List.cons_append, parseNum]
    rw [if_pos trivial]
    rw [takeWhile_block Char.isDigit (natChars n.natAbs) rest (natChars_all_digits _) h]
    rw [dropWhile_block Char.isDigit (natChars n.natAbs) rest (natChars_all_digits _) h]
    rw [if_neg (by simpa [List.isEmpty_iff] using natChars_ne_nil n.natAbs)]
    rw [digitsVal_natChars]
    have hval : -((n.natAbs : Int)) = n := by omega
    rw [hval]
  · simp only [intChars, if_neg hn]
    obtain ⟨c, cs, hcc⟩ : ∃ c cs, natChars n.toNat = c :: cs := by
      cases hnc : natChars n.toNat with
      | nil => exact absurd hnc (natChars_ne_nil _)
      | cons c cs => exact ⟨c, cs, rfl⟩
    have hcd : c.isDigit = true := natChars_all_digits n.toNat c (by rw [hcc]; exact List.mem_cons_self c cs)
    have hcneg : c ≠ '-' := by
      intro hc
      rw [hc] at hcd
      exact absurd hcd (by decide)
    rw [hcc, List.cons_append, parseNum]
    rw [if_neg hcneg]
    rw [show c :: (cs ++ rest) = (c :: cs) ++ rest from rfl]
    rw [takeWhile_block Char.isDigit (c :: cs) rest (by rw [← hcc]; exact natChars_all_digits _) h]
    rw [dropWhile_block Char.isDigit (c :: cs) rest (by rw [← hcc]; exact natChars_all_digits _) h]
    rw [if_neg (by simp)]
    rw [← hcc, digitsVal_natChars]
    have hval : ((n.toNat : Int)) = n := Int.toNat_of_nonneg (by omega)
    rw [hval]

/-- Reading a printed hexadecimal digit recovers its value. -/
theorem hexVal_hexDigitChar (m : Nat) (h : m < 16) : hexVal (hexDigitChar m) = some m := by
  interval_cases m <;> decide

/-- Every character escape is nonempty. -/
theorem escChar_length_pos (c : Char) : 1 ≤ (escChar c).length := by
  simp only [escChar]
  split_ifs <;> simp

/-- Parsing one two-character escape. -/
theorem psb_two_char (f : Nat) (e ch : Char) (tail s' rest : List Char)
    (hne : ¬ e = 'u') (hu : unescChar e = some ch)
    (hrec : parseStringBody f tail = some (s', rest)) :
    parseStringBody (f + 1) ('\\' :: e :: tail) = some (ch :: s', rest) := by
  simp only [parseStringBody]
  rw [if_pos trivial, if_neg hne, hu, hrec]
  rw [if_neg (show ¬('\\' : Char) = '"' by decide)]

/-- Parsing one `\u` escape. -/
theorem psb_u (f : Nat) (a b c3 d : Char) (va vb vc vd : Nat) (tail s' rest : List Char)
    (ha : hexVal a = some va) (hb : hexVal b = some vb) (hc : hexVal c3 = some vc)
    (hd : hexVal d = some vd)
    (hrec : parseStringBody f tail = some (s', rest)) :
    parseStringBody (f + 1) ('\\' :: 'u' :: a :: b :: c3 :: d :: tail) =
      some (Char.ofNat (((va * 16 + vb) * 16 + vc) * 16 + vd) :: s', rest) := by
  simp only [parseStringBody]
  rw [if_pos trivial, if_pos trivial, ha, hb, hc, hd, hrec]
  rw [if_neg (show ¬('\\' : Char) = '"' by decide)]

/-- Parsing one plain (unescaped) character. -/
theorem psb_raw (f : Nat) (c : Char) (tail s' rest : List Char)
    (h1 : ¬ c = '"') (h2 : ¬ c = '\\') (h3 : ¬ c.toNat < 32)
    (hrec : parseStringBody f tail = some (s', rest)) :
    parseStringBody (f + 1) (c :: tail) = some (c :: s', rest) := by
  simp only [parseStringBody]
  rw [if_neg h1, if_neg h2, if_neg h3, hrec]

/-- Parsing the escaped form of a string body (followed by the closing quote)
recovers the original characters. -/
theorem parseStringBody_escape (s : List Char) : ∀ (fuel : Nat) (rest : List Char),
    (escape s).length < fuel →
    parseStringBody fuel (escape s ++ '"' :: rest) = some (s, rest) := by
  induction s with
  | nil =>
    intro fuel rest h
    cases fuel with
    | zero => omega
    | succ f =>
      simp only [escape, List.nil_append, parseStringBody]
      rw [if_pos trivial]
  | cons c cs ih =>
    intro fuel rest h
    have hw : escape (c :: cs) = escChar c ++ escape cs := rfl
    have h1p : 1 ≤ (escChar c).length := escChar_length_pos c
    rw [hw] at h
    have hcs : (escape cs).length < fuel - 1 ∨ fuel = 0 := by
      rw [List.length_append] at h
      omega
    cases fuel with
    | zero => rw [List.length_append] at h; omega
    | succ f =>
      have hrec := ih f rest (by rw [List.length_append] at h; omega)
      rw [hw, List.append_assoc]
      by_cases e1 : c = '"'
      · subst e1
        rw [show escChar '"' = ['\\', '"'] from rfl]
        exact psb_two_char f '"' '"' _ cs rest (by decide) rfl hrec
      · by_cases e2 : c = '\\'
        · subst e2
          rw [show escChar '\\' = ['\\', '\\'] from rfl]
          exact psb_two_char f '\\' '\\' _ cs rest (by decide) rfl hrec
        · by_cases e3 : c = '\x08'
          · subst e3
            rw [show escChar '\x08' = ['\\', 'b'] from rfl]
            exact psb_two_char f 'b' '\x08' _ cs rest (by decide) rfl hrec
          · by_cases e4 : c = '\t'
            · subst e4
              rw [show escChar '\t' = ['\\', 't'] from rfl]
              exact psb_two_char f 't' '\t' _ cs rest (by decide) rfl hrec
            · by_cases e5 : c = '\n'
              · subst e5
                rw [show escChar '\n' = ['\\', 'n'] from rfl]
                exact psb_two_char f 'n' '\n' _ cs rest (by decide) rfl hrec
              · by_cases e6 : c = '\x0c'
                · subst e6
                  rw [show escChar '\x0c' = ['\\', 'f'] from rfl]
                  exact psb_two_char f 'f' '\x0c' _ cs rest (by decide) rfl hrec
                · by_cases e7 : c = '\r'
                  · subst e7
                    rw [show escChar '\r' = ['\\', 'r'] from rfl]
                    exact psb_two_char f 'r' '\r' _ cs rest (by decide) rfl hrec
                  · by_cases e8 : c.toNat < 32
                    · have hesc : escChar c =
                          ['\\', 'u', '0', '0', hexDigitChar (c.toNat / 16),
                            hexDigitChar (c.toNat % 16)] := by
                        simp only [escChar]
                        rw [if_neg e1, if_neg e2, if_neg e3, if_neg e4, if_neg e5, if_neg e6,
                          if_neg e7, if_pos e8]
                      rw [hesc]
                      have hu := psb_u f '0' '0' (hexDigitChar (c.toNat / 16))
                        (hexDigitChar (c.toNat % 16)) 0 0 (c.toNat / 16) (c.toNat % 16)
                        _ cs rest rfl rfl
                        (hexVal_hexDigitChar (c.toNat / 16) (by omega))
                        (hexVal_hexDigitChar (c.toNat % 16) (by omega))
                        hrec
                      have harith : ((0 * 16 + 0) * 16 + c.toNat / 16) * 16 + c.toNat % 16 =
                          c.toNat := by
                        have := Nat.div_add_mod c.toNat 16
                        omega
                      rw [harith] at hu
                      rw [charOfNat_toNat_small c e8] at hu
                      exact hu
                    · have hesc : escChar c = [c] := by
                        simp only [escChar]
                        rw [if_neg e1, if_neg e2, if_neg e3, if_neg e4, if_neg e5, if_neg e6,
                          if_neg e7, if_neg e8]
                      rw [hesc]
                      exact psb_raw f c _ cs rest e1 e2 e8 hrec

/-- A whitespace character is one of the four JSON whitespace characters. -/
theorem isWs_cases (c : Char) (hw : isWs c = true) :
    c = ' ' ∨ c = '\t' ∨ c = '\n' ∨ c = '\r' := by
  simp [isWs] at hw
  tauto

/-- Digits are not whitespace and not any of the structural characters the
parser dispatches on. -/
theorem isDigit_facts (c : Char) (h : c.isDigit = true) :
    isWs c = false ∧ c ≠ 'n' ∧ c ≠ 't' ∧ c ≠ 'f' ∧ c ≠ '"' ∧ c ≠ '[' ∧ c ≠ '\x7b' ∧
      c ≠ ']' ∧ c ≠ '\x7d' ∧ c ≠ '-' ∧ c ≠ ',' ∧ c ≠ ':' := by
  have hne : ∀ d : Char, d.isDigit = false → c ≠ d := by
    intro d hd hcd
    rw [hcd, hd] at h
    cases h
  have hws : isWs c = false := by
    by_contra hw
    have hw2 : isWs c = true := by revert hw; cases isWs c <;> simp
    rcases isWs_cases c hw2 with rfl | rfl | rfl | rfl <;> exact absurd h (by decide)
  exact ⟨hws, hne 'n' (by decide), hne 't' (by decide), hne 'f' (by decide),
    hne '"' (by decide), hne '[' (by decide), hne '\x7b' (by decide), hne ']' (by decide),
    hne '\x7d' (by decide), hne '-' (by decide), hne ',' (by decide), hne ':' (by decide)⟩

mutual

/-- Sufficient parser fuel for a value printed by `fmtVal`. -/
def fuelVal : Json → Nat
  | .null => 1
  | .bool _ => 1
  | .num _ => 1
  | .str _ => 1
  | .arr [] => 1
  | .arr (x :: xs) => 1 + fuelElemsBound (x :: xs)
  | .obj [] => 1
  | .obj (f :: fs) => 1 + fuelFieldsBound (f :: fs)

/-- Sufficient parser fuel for the items of a non-empty array. -/
def fuelElemsBound : List Json → Nat
  | [] => 0
  | x :: xs => 1 + fuelVal x + fuelElemsBound xs

/-- Sufficient parser fuel for the fields of a non-empty object. -/
def fuelFieldsBound : List (String × Json) → Nat
  | [] => 0
  | (_, v) :: fs => 1 + fuelVal v + fuelFieldsBound fs

end

/-- The first printed character of any value is not whitespace and is not a
closing bracket, closing brace, comma or colon. -/
theorem fmtVal_head (ind : Nat) (j : Json) :
    ∃ c t, fmtVal ind j = c :: t ∧ isWs c = false ∧ c ≠ ']' ∧ c ≠ '\x7d' ∧
      c ≠ ',' ∧ c ≠ ':' := by
  cases j with
  | null => exact ⟨'n', _, rfl, by decide, by decide, by decide, by decide, by decide⟩
  | bool b =>
    cases b with
    | true => exact ⟨'t', _, rfl, by decide, by decide, by decide, by decide, by decide⟩
    | false => exact ⟨'f', _, rfl, by decide, by decide, by decide, by decide, by decide⟩
  | num n =>
    by_cases hn : n < 0
    · refine ⟨'-', natChars n.natAbs, ?_, by decide, by decide, by decide, by decide, by decide⟩
      simp [fmtVal, intChars, hn]
    · obtain ⟨c, cs, hcc⟩ : ∃ c cs, natChars n.toNat = c :: cs := by
        cases hnc : natChars n.toNat with
        | nil => exact absurd hnc (natChars_ne_nil _)
        | cons c cs => exact ⟨c, cs, rfl⟩
      have hcd : c.isDigit = true :=
        natChars_all_digits n.toNat c (by rw [hcc]; exact List.mem_cons_self c cs)
      obtain ⟨hws, _, _, _, _, _, _, h8, h9, _, h11, h12⟩ := isDigit_facts c hcd
      refine ⟨c, cs, ?_, hws, h8, h9, h11, h12⟩
      simp [fmtVal, intChars, hn, hcc]
  | str s => exact ⟨'"', _, rfl, by decide, by decide, by decide, by decide, by decide⟩
  | arr xs =>
    cases xs with
    | nil => exact ⟨'[', _, rfl, by decide, by decide, by decide, by decide, by decide⟩
    | cons x xs => exact ⟨'[', _, rfl, by decide, by decide, by decide, by decide, by decide⟩
  | obj fs =>
    cases fs with
    | nil => exact ⟨'\x7b', _, rfl, by decide, by decide, by decide, by decide, by decide⟩
    | cons f fs => exact ⟨'\x7b', _, rfl, by decide, by decide, by decide, by decide, by decide⟩

/-- The value parser only looks at its input through `skipWs`. -/
theorem parseVal_skip (fuel : Nat) (cs1 cs2 : List Char) (h : skipWs cs1 = skipWs cs2) :
    parseVal fuel cs1 = parseVal fuel cs2 := by
  cases fuel with
  | zero => rfl
  | succ f => simp only [parseVal, h]

/-- The element parser only looks at its input through `skipWs`. -/
theorem parseElems_skip (fuel : Nat) (cs1 cs2 : List Char) (h : skipWs cs1 = skipWs cs2) :
    parseElems fuel cs1 = parseElems fuel cs2 := by
  cases fuel with
  | zero => rfl
  | succ f => simp only [parseElems, parseVal_skip f cs1 cs2 h]

/-- The field parser only looks at its input through `skipWs`. -/
theorem parseFields_skip (fuel : Nat) (cs1 cs2 : List Char) (h : skipWs cs1 = skipWs cs2) :
    parseFields fuel cs1 = parseFields fuel cs2 := by
  cases fuel with
  | zero => rfl
  | succ f => simp only [parseFields, h]

theorem parseElems_items (l : List Json)
    (IH : ∀ x ∈ l, ∀ ind fuel rest, fuelVal x ≤ fuel → headFails Char.isDigit rest →
      parseVal fuel (fmtVal ind x ++ rest) = some (x, rest)) :
    ∀ ind fuel ic rest, l ≠ [] → fuelElemsBound l ≤ fuel →
    parseElems fuel (fmtItems ind l ++ '\n' :: (indentC ic ++ ']' :: rest)) = some (l, rest) := by
  induction l with
  | nil => intro ind fuel ic rest hne; exact absurd rfl hne
  | cons x xs ihl =>
    intro ind fuel ic rest _ hfuel
    have hx := IH x (List.mem_cons_self x xs)
    cases fuel with
    | zero => simp [fuelElemsBound] at hfuel
    | succ f =>
      cases xs with
      | nil =>
        -- single item: fmtItems ind [x] = indentC ind ++ fmtVal ind x
        have hclose : headFails Char.isDigit ('\n' :: (indentC ic ++ ']' :: rest)) :=
          (by decide : Char.isDigit '\n' = false)
        have hfx : fuelVal x ≤ f := by simp [fuelElemsBound] at hfuel; omega
        simp only [fmtItems, parseElems]
        rw [parseVal_skip f ((indentC ind ++ fmtVal ind x) ++ '\n' :: (indentC ic ++ ']' :: rest))
          (fmtVal ind x ++ '\n' :: (indentC ic ++ ']' :: rest))
          (by rw [List.append_assoc, skipWs_indent])]
        rw [hx ind f ('\n' :: (indentC ic ++ ']' :: rest)) hfx hclose]
        simp only []
        rw [skipWs_cons_ws '\n' _ (by decide), skipWs_indent,
          skipWs_cons_not_ws ']' _ (by decide)]
        simp
      | cons y ys =>
        have hclose : headFails Char.isDigit (',' :: '\n' :: (fmtItems ind (y :: ys) ++
            '\n' :: (indentC ic ++ ']' :: rest))) :=
          (by decide : Char.isDigit ',' = false)
        have hfx : fuelVal x ≤ f := by simp [fuelElemsBound] at hfuel; omega
        have hfxs : fuelElemsBound (y :: ys) ≤ f := by
          simp [fuelElemsBound] at hfuel ⊢; omega
        simp only [fmtItems, parseElems]
        rw [parseVal_skip f _ (fmtVal ind x ++ ',' :: '\n' :: (fmtItems ind (y :: ys) ++
            '\n' :: (indentC ic ++ ']' :: rest)))
          (by simp only [List.append_assoc, List.cons_append, skipWs_indent])]
        rw [hx ind f _ hfx hclose]
        simp only []
        rw [skipWs_cons_not_ws ',' _ (by decide)]
        have hstep := ihl (fun z hz => IH z (List.mem_cons_of_mem x hz)) ind f ic rest
          (by simp) hfxs
        have hskip : parseElems f ('\n' :: (fmtItems ind (y :: ys) ++
            '\n' :: (indentC ic ++ ']' :: rest))) = some (y :: ys, rest) := by
          rw [parseElems_skip f _ (fmtItems ind (y :: ys) ++ '\n' :: (indentC ic ++ ']' :: rest))
            (by rw [skipWs_cons_ws '\n' _ (by decide)])]
          exact hstep
        simp [hskip]

theorem parseFields_fields (l : List (String × Json))
    (IH : ∀ kv ∈ l, ∀ ind fuel rest, fuelVal kv.2 ≤ fuel → headFails Char.isDigit rest →
      parseVal fuel (fmtVal ind kv.2 ++ rest) = some (kv.2, rest)) :
    ∀ ind fuel ic rest, l ≠ [] → fuelFieldsBound l ≤ fuel →
    parseFields fuel (fmtFields ind l ++ '\n' :: (indentC ic ++ '\x7d' :: rest)) =
      some (l, rest) := by
  induction l with
  | nil => intro ind fuel ic rest hne; exact absurd rfl hne
  | cons kv l2 ihl =>
    obtain ⟨k, v⟩ := kv
    intro ind fuel ic rest _ hfuel
    have hv := IH (k, v) (List.mem_cons_self (k, v) l2)
    cases fuel with
    | zero => simp [fuelFieldsBound] at hfuel
    | succ f =>
      have hfv : fuelVal v ≤ f := by simp [fuelFieldsBound] at hfuel; omega
      cases l2 with
      | nil =>
        have hclose : headFails Char.isDigit ('\n' :: (indentC ic ++ '\x7d' :: rest)) :=
          (by decide : Char.isDigit '\n' = false)
        simp only [fmtFields, parseFields]
        rw [show (indentC ind ++ ('"' :: (escape k.data ++ '"' :: ':' :: ' ' :: fmtVal ind v))) ++
            '\n' :: (indentC ic ++ '\x7d' :: rest) =
            indentC ind ++ ('"' :: (escape k.data ++ '"' ::
              (':' :: ' ' :: (fmtVal ind v ++ '\n' :: (indentC ic ++ '\x7d' :: rest))))) from by
          simp [List.append_assoc]]
        rw [skipWs_indent, skipWs_cons_not_ws '"' _ (by decide)]
        simp only []
        rw [if_pos trivial]
        rw [parseStringBody_escape k.data _ _ (by simp [List.length_append]; omega)]
        simp only []
        rw [skipWs_cons_not_ws ':' _ (by decide)]
        simp only []
        rw [if_pos trivial]
        rw [parseVal_skip f (' ' :: (fmtVal ind v ++ '\n' :: (indentC ic ++ '\x7d' :: rest)))
          (fmtVal ind v ++ '\n' :: (indentC ic ++ '\x7d' :: rest))
          (by rw [skipWs_cons_ws ' ' _ (by decide)])]
        rw [hv ind f _ hfv hclose]
        simp only []
        rw [skipWs_cons_ws '\n' _ (by decide), skipWs_indent,
          skipWs_cons_not_ws '\x7d' _ (by decide)]
        simp
      | cons kv2 l3 =>
        have hclose : headFails Char.isDigit (',' :: '\n' :: (fmtFields ind (kv2 :: l3) ++
            '\n' :: (indentC ic ++ '\x7d' :: rest))) :=
          (by decide : Char.isDigit ',' = false)
        have hfl : fuelFieldsBound (kv2 :: l3) ≤ f := by
          simp [fuelFieldsBound] at hfuel ⊢
          omega
        simp only [fmtFields, parseFields]
        rw [show (indentC ind ++ ('"' :: (escape k.data ++ '"' :: ':' :: ' ' ::
            (fmtVal ind v ++ ',' :: '\n' :: fmtFields ind (kv2 :: l3))))) ++
            '\n' :: (indentC ic ++ '\x7d' :: rest) =
            indentC ind ++ ('"' :: (escape k.data ++ '"' ::
              (':' :: ' ' :: (fmtVal ind v ++ ',' :: '\n' :: (fmtFields ind (kv2 :: l3) ++
                '\n' :: (indentC ic ++ '\x7d' :: rest)))))) from by
          simp [List.append_assoc]]
        rw [skipWs_indent, skipWs_cons_not_ws '"' _ (by decide)]
        simp only []
        rw [if_pos trivial]
        rw [parseStringBody_escape k.data _ _ (by simp [List.length_append]; omega)]
        simp only []
        rw [skipWs_cons_not_ws ':' _ (by decide)]
        simp only []
        rw [if_pos trivial]
        rw [parseVal_skip f (' ' :: (fmtVal ind v ++ ',' :: '\n' :: (fmtFields ind (kv2 :: l3) ++
            '\n' :: (indentC ic ++ '\x7d' :: rest))))
          (fmtVal ind v ++ ',' :: '\n' :: (fmtFields ind (kv2 :: l3) ++
            '\n' :: (indentC ic ++ '\x7d' :: rest)))
          (by rw [skipWs_cons_ws ' ' _ (by decide)])]
        rw [hv ind f _ hfv hclose]
        simp only []
        rw [skipWs_cons_not_ws ',' _ (by decide)]
        have hstep := ihl (fun z hz => IH z (List.mem_cons_of_mem (k, v) hz)) ind f ic rest
          (by simp) hfl
        have hskip : parseFields f ('\n' :: (fmtFields ind (kv2 :: l3) ++
            '\n' :: (indentC ic ++ '\x7d' :: rest))) = some (kv2 :: l3, rest) := by
          rw [parseFields_skip f _ (fmtFields ind (kv2 :: l3) ++
              '\n' :: (indentC ic ++ '\x7d' :: rest))
            (by rw [skipWs_cons_ws '\n' _ (by decide)])]
          exact hstep
        simp [hskip]

theorem parseVal_fmtVal : ∀ j : Json, ∀ ind fuel rest, fuelVal j ≤ fuel →
    headFails Char.isDigit rest →
    parseVal fuel (fmtVal ind j ++ rest) = some (j, rest) := by
  refine Json.myInd (fun j => ∀ ind fuel rest, fuelVal j ≤ fuel → headFails Char.isDigit rest →
    parseVal fuel (fmtVal ind j ++ rest) = some (j, rest)) ?_ ?_ ?_ ?_ ?_ ?_
  · -- null
    intro ind fuel rest hf _
    cases fuel with
    | zero => simp [fuelVal] at hf
    | succ f => rfl
  · -- bool
    intro b ind fuel rest hf _
    cases fuel with
    | zero => simp [fuelVal] at hf
    | succ f => cases b <;> rfl
  · -- num
    intro n ind fuel rest hf hd
    cases fuel with
    | zero => simp [fuelVal] at hf
    | succ f =>
      have hpn := parseNum_intChars n rest hd
      by_cases hn : n < 0
      · rw [show fmtVal ind (.num n) = '-' :: natChars n.natAbs from by simp [fmtVal, intChars, hn]]
        simp only [parseVal, List.cons_append]
        rw [skipWs_cons_not_ws '-' _ (by decide)]
        simp only []
        rw [if_neg (by decide), if_neg (by decide), if_neg (by decide), if_neg (by decide),
          if_neg (by decide), if_neg (by decide), if_pos (Or.inl trivial)]
        rw [show ('-' :: (natChars n.natAbs ++ rest)) = intChars n ++ rest from by
          simp [intChars, hn]]
        exact hpn
      · obtain ⟨c, cs, hcc⟩ : ∃ c cs, natChars n.toNat = c :: cs := by
          cases hnc : natChars n.toNat with
          | nil => exact absurd hnc (natChars_ne_nil _)
          | cons c cs => exact ⟨c, cs, rfl⟩
        have hcd : c.isDigit = true :=
          natChars_all_digits n.toNat c (by rw [hcc]; exact List.mem_cons_self c cs)
        obtain ⟨hws, hn1, hn2, hn3, hn4, hn5, hn6, _, _, _, _, _⟩ := isDigit_facts c hcd
        rw [show fmtVal ind (.num n) = c :: cs from by simp [fmtVal, intChars, hn, hcc]]
        simp only [parseVal, List.cons_append]
        rw [skipWs_cons_not_ws c _ hws]
        simp only []
        rw [if_neg hn1, if_neg hn2, if_neg hn3, if_neg hn4, if_neg hn5, if_neg hn6,
          if_pos (Or.inr hcd)]
        rw [show (c :: (cs ++ rest)) = intChars n ++ rest from by
          simp [intChars, hn, hcc]]
        exact hpn
  · -- str
    intro s ind fuel rest hf _
    cases fuel with
    | zero => simp [fuelVal] at hf
    | succ f =>
      rw [show fmtVal ind (.str s) ++ rest = '"' :: (escape s.data ++ '"' :: rest) from by
        simp [fmtVal]]
      simp only [parseVal]
      rw [skipWs_cons_not_ws '"' _ (by decide)]
      simp only []
      rw [if_neg (by decide), if_neg (by decide), if_neg (by decide), if_pos trivial]
      rw [parseStringBody_escape s.data _ rest (by simp [List.length_append]; omega)]
  · -- arr
    intro xs IH ind fuel rest hf hd
    cases xs with
    | nil =>
      cases fuel with
      | zero => simp [fuelVal] at hf
      | succ f => rfl
    | cons x xs2 =>
      cases fuel with
      | zero => simp [fuelVal] at hf
      | succ f =>
        have hfe : fuelElemsBound (x :: xs2) ≤ f := by
          simp [fuelVal] at hf
          omega
        rw [show fmtVal ind (.arr (x :: xs2)) ++ rest =
            '[' :: '\n' :: (fmtItems (ind + 2) (x :: xs2) ++
              '\n' :: (indentC ind ++ ']' :: rest)) from by
          simp [fmtVal, List.append_assoc]]
        simp only [parseVal]
        rw [skipWs_cons_not_ws '[' _ (by decide)]
        simp only []
        rw [if_neg (by decide), if_neg (by decide), if_neg (by decide), if_neg (by decide),
          if_pos trivial]
        obtain ⟨c0, t0, hc0, hws0, hne0, _, _, _⟩ := fmtVal_head (ind + 2) x
        have hh : ∃ t1, skipWs ('\n' :: (fmtItems (ind + 2) (x :: xs2) ++
            '\n' :: (indentC ind ++ ']' :: rest))) = c0 :: t1 := by
          rw [skipWs_cons_ws '\n' _ (by decide)]
          cases xs2 with
          | nil =>
            rw [show fmtItems (ind + 2) [x] = indentC (ind + 2) ++ fmtVal (ind + 2) x from rfl]
            rw [List.append_assoc, skipWs_indent, hc0, List.cons_append,
              skipWs_cons_not_ws c0 _ hws0]
            exact ⟨_, rfl⟩
          | cons y ys =>
            rw [show fmtItems (ind + 2) (x :: y :: ys) = indentC (ind + 2) ++
              (fmtVal (ind + 2) x ++ ',' :: '\n' :: fmtItems (ind + 2) (y :: ys)) from rfl]
            rw [List.append_assoc, skipWs_indent, hc0, List.cons_append, List.cons_append,
              skipWs_cons_not_ws c0 _ hws0]
            exact ⟨_, rfl⟩
        obtain ⟨t1, ht1⟩ := hh
        rw [ht1]
        simp only []
        rw [if_neg hne0]
        have hskipeq : skipWs (c0 :: t1) = skipWs (fmtItems (ind + 2) (x :: xs2) ++
            '\n' :: (indentC ind ++ ']' :: rest)) := by
          rw [← ht1, skipWs_idem, skipWs_cons_ws '\n' _ (by decide)]
        rw [parseElems_skip f (c0 :: t1) _ hskipeq]
        rw [parseElems_items (x :: xs2)
          (fun z hz => IH z hz) (ind + 2) f ind rest (by simp) hfe]
  · -- obj
    intro fs IH ind fuel rest hf hd
    cases fs with
    | nil =>
      cases fuel with
      | zero => simp [fuelVal] at hf
      | succ f => rfl
    | cons kv fs2 =>
      cases fuel with
      | zero => simp [fuelVal] at hf
      | succ f =>
        have hfe : fuelFieldsBound (kv :: fs2) ≤ f := by
          simp [fuelVal] at hf
          omega
        rw [show fmtVal ind (.obj (kv :: fs2)) ++ rest =
            '\x7b' :: '\n' :: (fmtFields (ind + 2) (kv :: fs2) ++
              '\n' :: (indentC ind ++ '\x7d' :: rest)) from by
          simp [fmtVal, List.append_assoc]]
        simp only [parseVal]
        rw [skipWs_cons_not_ws '\x7b' _ (by decide)]
        simp only []
        rw [if_neg (by decide), if_neg (by decide), if_neg (by decide), if_neg (by decide),
          if_neg (by decide), if_pos trivial]
        have hh : ∃ t1, skipWs ('\n' :: (fmtFields (ind + 2) (kv :: fs2) ++
            '\n' :: (indentC ind ++ '\x7d' :: rest))) = '"' :: t1 := by
          rw [skipWs_cons_ws '\n' _ (by decide)]
          obtain ⟨k, v⟩ := kv
          cases fs2 with
          | nil =>
            rw [show fmtFields (ind + 2) [(k, v)] = indentC (ind + 2) ++
              ('"' :: (escape k.data ++ '"' :: ':' :: ' ' :: fmtVal (ind + 2) v)) from rfl]
            rw [List.append_assoc, skipWs_indent, List.cons_append,
              skipWs_cons_not_ws '"' _ (by decide)]
            exact ⟨_, rfl⟩
          | cons kv2 fs3 =>
            rw [show fmtFields (ind + 2) ((k, v) :: kv2 :: fs3) = indentC (ind + 2) ++
              ('"' :: (escape k.data ++ '"' :: ':' :: ' ' ::
                (fmtVal (ind + 2) v ++ ',' :: '\n' :: fmtFields (ind + 2) (kv2 :: fs3)))) from rfl]
            rw [List.append_assoc, skipWs_indent, List.cons_append,
              skipWs_cons_not_ws '"' _ (by decide)]
            exact ⟨_, rfl⟩
        obtain ⟨t1, ht1⟩ := hh
        rw [ht1]
        simp only []
        rw [if_neg (by decide)]
        have hskipeq : skipWs ('"' :: t1) = skipWs (fmtFields (ind + 2) (kv :: fs2) ++
            '\n' :: (indentC ind ++ '\x7d' :: rest)) := by
          rw [← ht1, skipWs_idem, skipWs_cons_ws '\n' _ (by decide)]
        rw [parseFields_skip f ('"' :: t1) _ hskipeq]
        rw [parseFields_fields (kv :: fs2)
          (fun z hz => IH z hz) (ind + 2) f ind rest (by simp) hfe]

theorem fuelVal_le_fmt : ∀ j : Json, ∀ ind, fuelVal j ≤ (fmtVal ind j).length := by
  refine Json.myInd (fun j => ∀ ind, fuelVal j ≤ (fmtVal ind j).length) ?_ ?_ ?_ ?_ ?_ ?_
  · intro ind
    simp [fuelVal, fmtVal, litChars]
  · intro b ind
    cases b <;> simp [fuelVal, fmtVal, litChars]
  · intro n ind
    have h1 : 1 ≤ (intChars n).length := by
      by_cases hn : n < 0
      · simp [intChars, hn]
      · simp only [intChars, if_neg hn]
        obtain ⟨c, cs, hcc⟩ : ∃ c cs, natChars n.toNat = c :: cs := by
          cases hnc : natChars n.toNat with
          | nil => exact absurd hnc (natChars_ne_nil _)
          | cons c cs => exact ⟨c, cs, rfl⟩
        rw [hcc]
        simp
    simpa [fuelVal, fmtVal] using h1
  · intro s ind
    simp [fuelVal, fmtVal]
  · intro xs IH ind
    cases xs with
    | nil => simp [fuelVal, fmtVal]
    | cons x xs2 =>
      have hinner : ∀ l : List Json, l ≠ [] →
          (∀ z ∈ l, ∀ i2, fuelVal z ≤ (fmtVal i2 z).length) →
          ∀ ind2, 1 ≤ ind2 → fuelElemsBound l ≤ (fmtItems ind2 l).length := by
        intro l
        induction l with
        | nil => intro h; exact absurd rfl h
        | cons z zs ihz =>
          intro _ hmem ind2 hind
          cases zs with
          | nil =>
            have hz := hmem z (List.mem_cons_self z []) ind2
            simp [fuelElemsBound, fmtItems, indentC]
            omega
          | cons w ws =>
            have h1 := hmem z (List.mem_cons_self z (w :: ws)) ind2
            have h2 := ihz (by simp) (fun u hu => hmem u (List.mem_cons_of_mem z hu)) ind2 hind
            simp only [fuelElemsBound, fmtItems, List.length_append, List.length_cons,
              indentC, List.length_replicate] at h1 h2 ⊢
            omega
      have h := hinner (x :: xs2) (by simp) (fun z hz => IH z hz) (ind + 2) (by omega)
      simp only [fuelVal, fmtVal, List.length_append, List.length_cons, indentC,
        List.length_replicate] at h ⊢
      omega
  · intro fs IH ind
    cases fs with
    | nil => simp [fuelVal, fmtVal]
    | cons kv fs2 =>
      have hinner : ∀ l : List (String × Json), l ≠ [] →
          (∀ z ∈ l, ∀ i2, fuelVal z.2 ≤ (fmtVal i2 z.2).length) →
          ∀ ind2, fuelFieldsBound l ≤ (fmtFields ind2 l).length := by
        intro l
        induction l with
        | nil => intro h; exact absurd rfl h
        | cons z zs ihz =>
          obtain ⟨k, v⟩ := z
          intro _ hmem ind2
          cases zs with
          | nil =>
            have hz := hmem (k, v) (List.mem_cons_self (k, v) []) ind2
            simp only [fuelFieldsBound, fmtFields, List.length_append, List.length_cons,
              indentC, List.length_replicate] at hz ⊢
            omega
          | cons w ws =>
            have h1 := hmem (k, v) (List.mem_cons_self (k, v) (w :: ws)) ind2
            have h2 := ihz (by simp) (fun u hu => hmem u (List.mem_cons_of_mem (k, v) hu)) ind2
            simp only [fuelFieldsBound, fmtFields, List.length_append, List.length_cons,
              indentC, List.length_replicate] at h1 h2 ⊢
            omega
      have h := hinner (kv :: fs2) (by simp) (fun z hz => IH z hz) (ind + 2)
      simp only [fuelVal, fmtVal, List.length_append, List.length_cons, indentC,
        List.length_replicate] at h ⊢
      omega

theorem parseJson_jqFmt (j : Json) : parseJson (jqFmt j) = some j := by
  unfold parseJson jqFmt
  rw [show (String.mk (fmtVal 0 j ++ ['\n'])).data = fmtVal 0 j ++ ['\n'] from rfl]
  have hb := fuelVal_le_fmt j 0
  rw [parseVal_fmtVal j 0 ((fmtVal 0 j ++ ['\n']).length + 1) ['\n']
    (by simp [List.length_append]; omega)
    ((by decide : Char.isDigit '\n' = false))]
  simp [skipWs, isWs]

theorem parseVal_skipWs_ne (fuel : Nat) (cs : List Char) (r : Json × List Char)
    (h : parseVal fuel cs = some r) : skipWs cs ≠ [] := by
  intro h0
  cases fuel with
  | zero => simp [parseVal] at h
  | succ f =>
    rw [parseVal, h0] at h
    simp at h

theorem parseJson_skipWs_ne (s : String) (j : Json) (h : parseJson s = some j) :
    skipWs s.data ≠ [] := by
  unfold parseJson at h
  cases hp : parseVal (s.data.length + 1) s.data with
  | none => rw [hp] at h; simp at h
  | some r => exact parseVal_skipWs_ne _ _ r hp

/-- Counterexample to C6 as stated: on a successful fetch the file receives
the jq-formatted text, which differs byte-wise from the raw response body. -/
theorem c6_counterexample :
    (fetch_hcp_secrets (.ok "\x7b\"access_token\": \"T\"\x7d")
        (.ok "\x7b\"secrets\":[]\x7d")).fileWritten =
      some "\x7b\n  \"secrets\": []\n\x7d\n" ∧
    ("\x7b\n  \"secrets\": []\n\x7d\n" : String) ≠ "\x7b\"secrets\":[]\x7d" ∧
    (fetch_hcp_secrets (.ok "\x7b\"access_token\": \"T\"\x7d")
        (.ok "\x7b\"secrets\":[]\x7d")).result = .ok (.obj [("secrets", .arr [])]) :=
  ⟨rfl, by decide, rfl⟩

/-- C6 (amended): on a successful fetch the fetcher writes the jq-formatted
rendering of the response body (the same JSON document, not the raw bytes)
to the fixed local file, and returns that formatted text parsed into the
document shape. -/
theorem c6_fetch_writes_formatted (tokenCurl : Except String String) (body tk : String)
    (j : Json)
    (htok : generate_hcp_api_token tokenCurl = .ok tk)
    (hparse : parseJson body = some j) :
    fetch_hcp_secrets tokenCurl (.ok body) = ⟨.ok j, some (jqFmt j)⟩ := by
  unfold fetch_hcp_secrets
  rw [htok]
  simp only []
  unfold jqPrettyRun
  rw [if_neg (parseJson_skipWs_ne body j hparse), hparse]
  simp only []
  rw [parseJson_jqFmt j]

/-- Witness for the amended C6 at concrete token and secrets responses. -/
theorem c6_witness :
    generate_hcp_api_token (.ok "\x7b\"access_token\": \"T\"\x7d") = .ok "T" ∧
    parseJson "\x7b\"secrets\":[]\x7d" = some (.obj [("secrets", .arr [])]) ∧
    fetch_hcp_secrets (.ok "\x7b\"access_token\": \"T\"\x7d") (.ok "\x7b\"secrets\":[]\x7d") =
      ⟨.ok (.obj [("secrets", .arr [])]), some (jqFmt (.obj [("secrets", .arr [])]))⟩ :=
  ⟨rfl, rfl,
    c6_fetch_writes_formatted (.ok "\x7b\"access_token\": \"T\"\x7d") "\x7b\"secrets\":[]\x7d"
      "T" (.obj [("secrets", .arr [])]) rfl rfl⟩
